import Mathlib

/-!
Verification of the gamdl-server job-orchestration and result-cache subsystem
(`server.js`, embedded in `PORTAINER_DEPLOYMENT.md`).

The development shallowly embeds the server's pure logic:
strings are Lean `String`s; the Redis cache is an association list with
explicit expiry bookkeeping; the on-disk file store is a list of existing
paths; time is `Nat` milliseconds.  Each definition is translated from the
corresponding JavaScript function of the source.
-/

namespace GamdlServer

/-! ### JavaScript string primitives used by the server -/

/-- Character-list prefix test (building block for `includes`). -/
def isPreL : List Char → List Char → Bool
  | [], _ => true
  | _ :: _, [] => false
  | a :: as, b :: bs => a == b && isPreL as bs

/-- Does `needle` occur as a contiguous substring of `hay` (character lists)? -/
def containsSub (needle : List Char) : List Char → Bool
  | [] => isPreL needle []
  | b :: bs => isPreL needle (b :: bs) || containsSub needle bs

/-- Embedding of JavaScript `s.includes(sub)`. -/
def strIncludes (s sub : String) : Bool :=
  containsSub sub.data s.data

/-- Character-list suffix test: `xs` is a suffix of `ys`. -/
def isSufL (xs ys : List Char) : Bool :=
  isPreL xs.reverse ys.reverse

/-- Embedding of JavaScript `name.endsWith('.m4a')` as used by `findM4aFiles`. -/
def endsWithM4a (s : String) : Bool :=
  isSufL ".m4a".data s.data

/-- ASCII lower-casing of one character, for `toLowerCase()`. -/
def lowerChar (c : Char) : Char :=
  if 65 ≤ c.toNat ∧ c.toNat ≤ 90 then Char.ofNat (c.toNat + 32) else c

/-- Embedding of JavaScript `s.toLowerCase()` (ASCII range). -/
def jsToLower (s : String) : String :=
  ⟨s.data.map lowerChar⟩

/-- Whitespace predicate for `trim()` (ASCII whitespace). -/
def wsChar (c : Char) : Bool :=
  c == ' ' || c == '\t' || c == '\n' || c == '\r'

/-- Remove leading then trailing whitespace from a character list. -/
def trimL (l : List Char) : List Char :=
  (((l.dropWhile wsChar).reverse.dropWhile wsChar)).reverse

/-- Embedding of JavaScript `s.trim()` (ASCII whitespace). -/
def jsTrim (s : String) : String :=
  ⟨trimL s.data⟩

/-! ### Identity normalizer (`getCacheKey`, server.js) -/

/-- The normalization applied to a raw URL: `url.trim().toLowerCase()`. -/
def normalizeUrl (url : String) : String :=
  jsToLower (jsTrim url)

/-- `getCacheKey(url)`: Redis key for a raw URL, namespaced with a prefix
and built from the trimmed, lower-cased URL (server.js `getCacheKey`). -/
def getCacheKey (url : String) : String :=
  "cache:url:" ++ normalizeUrl url

/-! ### Data model -/

/-- The value returned by the queue worker on success
(`{success, fileUrl, fileName, jobId}` in `downloadQueue.process`). -/
structure JobResult where
  success : Bool
  fileUrl : String
  fileName : String
  jobId : String
deriving DecidableEq, Repr

/-- The JSON object written to Redis on completion:
the worker result spread together with `cachedAt`. -/
structure CacheRecord where
  success : Bool
  fileUrl : String
  fileName : String
  jobId : String
  cachedAt : Nat
deriving DecidableEq, Repr

/-- One Redis entry: the stored record plus `setex` bookkeeping
(the moment of the write, in ms, and the TTL argument, in seconds). -/
structure CacheEntry where
  record : CacheRecord
  setAt : Nat
  ttlSec : Nat
deriving DecidableEq, Repr

/-- A queued/active Bull job's data (`{url, jobId}`). -/
structure JobData where
  url : String
  jobId : String
deriving DecidableEq, Repr

/-- An entry of the in-memory `jobResults` map. -/
inductive JobOutcome where
  | completed (result : JobResult)
  | failed (error : String)
deriving DecidableEq, Repr

/-- A pending `scheduleFileDeletion` timer: job whose directory will be
removed, the arming moment (ms) and the `setTimeout` delay (ms). -/
structure DeletionTimer where
  jobId : String
  armedAt : Nat
  delayMs : Nat
deriving DecidableEq, Repr

/-- Whole-server state: Redis cache, on-disk files (set of existing paths),
Bull queue bookkeeping, the `jobResults` map, and pending deletion timers. -/
structure ServerState where
  cache : List (String × CacheEntry)
  fsys : List String
  waiting : List JobData
  active : List JobData
  completedJobs : List JobData
  failedJobs : List JobData
  jobResults : List (String × JobOutcome)
  timers : List DeletionTimer
deriving DecidableEq, Repr

/-- The empty server state at startup. -/
def initState : ServerState :=
  { cache := [], fsys := [], waiting := [], active := [],
    completedJobs := [], failedJobs := [], jobResults := [], timers := [] }

/-! ### Redis cache operations -/

/-- `redisClient.get(key)` at time `now` (ms): present only while the
`setex` TTL has not elapsed. -/
def redisGet (now : Nat) (store : List (String × CacheEntry)) (key : String) :
    Option CacheRecord :=
  match store.find? (fun e => e.1 == key) with
  | some e => if now < e.2.setAt + e.2.ttlSec * 1000 then some e.2.record else none
  | none => none

/-- `redisClient.setex(key, ttlSec, value)` at time `now` (ms):
overwrites any previous entry for `key`. -/
def redisSetex (store : List (String × CacheEntry)) (key : String)
    (record : CacheRecord) (ttlSec now : Nat) : List (String × CacheEntry) :=
  (key, { record := record, setAt := now, ttlSec := ttlSec }) ::
    store.filter (fun e => !(e.1 == key))

/-- `redisClient.del(key)`. -/
def redisDel (store : List (String × CacheEntry)) (key : String) :
    List (String × CacheEntry) :=
  store.filter (fun e => !(e.1 == key))

/-! ### Files -/

/-- The path `downloads/<jobId>/<fileName>` (relative to `__dirname`). -/
def downloadsPath (jobId fileName : String) : String :=
  "downloads/" ++ jobId ++ "/" ++ fileName

/-- `cacheFilesExist(jobId, fileName)`: `fs.access` on the cached file's
path, i.e. membership in the set of existing paths. -/
def cacheFilesExist (fsys : List String) (jobId fileName : String) : Bool :=
  fsys.contains (downloadsPath jobId fileName)

/-- The produced-file list referenced by a cache record: the stored schema
(`CACHE_IMPLEMENTATION.md`) references exactly one file, `fileName`. -/
def producedFiles (r : CacheRecord) : List String :=
  [r.fileName]

/-- A record is valid when every path in its `producedFiles`, resolved under
the record's job directory, exists on disk. -/
def recordValid (fsys : List String) (r : CacheRecord) : Bool :=
  (producedFiles r).all (fun f => fsys.contains (downloadsPath r.jobId f))

/-! ### Artifact directory trees and `findM4aFiles` -/

mutual

/-- One entry of a directory listing (`fs.readdir` with file types):
a plain file or a subdirectory with its own listing. -/
inductive FSEntry where
  | file : String → FSEntry
  | dir : String → FSDir → FSEntry

/-- A directory listing, in `readdir` order. -/
inductive FSDir where
  | nil : FSDir
  | cons : FSEntry → FSDir → FSDir

end

mutual

/-- Contribution of one entry to `findM4aFiles`: a file is kept when its
name ends in `.m4a`; a directory is searched recursively, with the
directory name joined in front of each result (server.js `findM4aFiles`). -/
def findM4aEntry : FSEntry → List String
  | FSEntry.file n => if endsWithM4a n then [n] else []
  | FSEntry.dir n children => (findM4aDir children).map (fun f => n ++ "/" ++ f)

/-- `findM4aFiles(dir)`: recursive enumeration of `.m4a` files, in
traversal order. -/
def findM4aDir : FSDir → List String
  | FSDir.nil => []
  | FSDir.cons e rest => findM4aEntry e ++ findM4aDir rest

end

mutual

/-- All file paths under one entry, in the same traversal order as
`findM4aEntry` but without the suffix filter. -/
def allFilesEntry : FSEntry → List String
  | FSEntry.file n => [n]
  | FSEntry.dir n children => (allFilesDir children).map (fun f => n ++ "/" ++ f)

/-- All file paths under a directory listing, relative to it. -/
def allFilesDir : FSDir → List String
  | FSDir.nil => []
  | FSDir.cons e rest => allFilesEntry e ++ allFilesDir rest

end

/-! ### Worker (`downloadQueue.process`) -/

/-- Outcome of `execAsync(gamdl ...)`: either the process resolved (exit 0)
leaving the output directory's tree, or it rejected (non-zero exit, or the
10-minute timeout / buffer limit). -/
inductive ProducerOutcome where
  | exited (tree : FSDir)
  | execError (msg : String)

/-- Error message thrown by the worker when no `.m4a` file was produced. -/
def noM4aMsg : String := "No M4A file found after download"

/-- The worker body (`downloadQueue.process` handler), as a function from
the producer outcome to the job's value or thrown error: on exit 0 it
enumerates `.m4a` files under the output directory, fails if there are
none, and otherwise returns a result referencing the first one. -/
def processJob (baseUrl jobId : String) (outcome : ProducerOutcome) :
    Except String JobResult :=
  match outcome with
  | ProducerOutcome.execError msg => Except.error msg
  | ProducerOutcome.exited tree =>
    match findM4aDir tree with
    | [] => Except.error noM4aMsg
    | fileName :: _ =>
      Except.ok
        { success := true
          fileUrl := baseUrl ++ "/downloads/" ++ jobId ++ "/" ++ fileName
          fileName := fileName
          jobId := jobId }

/-! ### Cache TTL configuration -/

def CACHE_TTL_DAYS : Nat := 3

def CACHE_TTL_SECONDS : Nat := CACHE_TTL_DAYS * 24 * 60 * 60

/-- Insert/overwrite an entry of the `jobResults` map. -/
def setResult (m : List (String × JobOutcome)) (jobId : String)
    (o : JobOutcome) : List (String × JobOutcome) :=
  (jobId, o) :: m.filter (fun e => !(e.1 == jobId))

/-! ### Queue event handlers -/

/-- The `completed` listener at time `now` (ms): records the outcome in
`jobResults`, writes the result (spread with `cachedAt`) to Redis under the
job URL's cache key with `CACHE_TTL_SECONDS`, and arms
`scheduleFileDeletion(jobId, CACHE_TTL_SECONDS * 1000)`. -/
def onCompleted (now : Nat) (job : JobData) (result : JobResult)
    (st : ServerState) : ServerState :=
  let record : CacheRecord :=
    { success := result.success, fileUrl := result.fileUrl,
      fileName := result.fileName, jobId := result.jobId, cachedAt := now }
  { st with
    jobResults := setResult st.jobResults job.jobId (JobOutcome.completed result)
    cache := redisSetex st.cache (getCacheKey job.url) record CACHE_TTL_SECONDS now
    timers := st.timers ++
      [{ jobId := job.jobId, armedAt := now, delayMs := CACHE_TTL_SECONDS * 1000 }] }

/-- The `failed` listener: records the error in `jobResults`; no cache
write and no deletion timer. -/
def onFailed (job : JobData) (errMsg : String) (st : ServerState) : ServerState :=
  { st with
    jobResults := setResult st.jobResults job.jobId (JobOutcome.failed errMsg) }

/-- A job finishing on a worker: Bull moves it out of `active` into the
completed or failed set and fires the corresponding event listener. -/
def finishJob (now : Nat) (baseUrl : String) (job : JobData)
    (outcome : ProducerOutcome) (st : ServerState) : ServerState :=
  match processJob baseUrl job.jobId outcome with
  | Except.ok r =>
    onCompleted now job r
      { st with active := st.active.erase job
                completedJobs := st.completedJobs ++ [job] }
  | Except.error e =>
    onFailed job e
      { st with active := st.active.erase job
                failedJobs := st.failedJobs ++ [job] }

/-! ### Submission endpoint (`POST /api/download`) -/

/-- Response of the submission endpoint (the fields the claims speak
about: the 400 branches, the cache-hit payload, and the queued payload). -/
inductive DlResponse where
  | badRequest (msg : String)
  | cacheHit (jobId : String) (cachedAt : Nat) (result : JobResult)
  | queued (jobId : String)
deriving DecidableEq, Repr

/-- The `result` object of the cache-hit response, rebuilt from the
stored record field by field as in the handler. -/
def recordResult (r : CacheRecord) : JobResult :=
  { success := r.success, fileUrl := r.fileUrl,
    fileName := r.fileName, jobId := r.jobId }

/-- `app.post('/api/download')` at time `now` with a fresh UUID `freshId`:
validates the body, consults the cache, verifies cached files on a hit,
invalidates a stale entry, and otherwise enqueues a new job. -/
def handleDownload (now : Nat) (freshId : String) (body : Option String)
    (st : ServerState) : DlResponse × ServerState :=
  match body with
  | none => (DlResponse.badRequest "URL is required", st)
  | some url =>
    if url == "" then
      (DlResponse.badRequest "URL is required", st)
    else if !(strIncludes url "music.apple.com") then
      (DlResponse.badRequest "Invalid Apple Music URL", st)
    else
      let cacheKey := getCacheKey url
      match redisGet now st.cache cacheKey with
      | some cached =>
        if cacheFilesExist st.fsys cached.jobId cached.fileName then
          (DlResponse.cacheHit cached.jobId cached.cachedAt (recordResult cached), st)
        else
          let st1 := { st with cache := redisDel st.cache cacheKey }
          (DlResponse.queued freshId,
            { st1 with waiting := st1.waiting ++ [{ url := url, jobId := freshId }] })
      | none =>
        (DlResponse.queued freshId,
          { st with waiting := st.waiting ++ [{ url := url, jobId := freshId }] })

/-! ### Queue statistics and clearing -/

/-- `GET /api/queue/stats`: `(waiting, active, completed, failed, total)`. -/
def queueStats (st : ServerState) : Nat × Nat × Nat × Nat × Nat :=
  (st.waiting.length, st.active.length, st.completedJobs.length,
    st.failedJobs.length,
    st.waiting.length + st.active.length + st.completedJobs.length +
      st.failedJobs.length)

/-- `POST /api/queue/clear`: reads the pre-clear counts, kills producer
processes (no state of this model), obliterates all queue bookkeeping and
clears the in-memory `jobResults`; the Redis cache, the on-disk files and
the armed deletion timers are untouched. -/
def clearQueue (st : ServerState) :
    (Nat × Nat × Nat × Nat × Nat) × ServerState :=
  ((st.waiting.length, st.active.length, st.completedJobs.length,
      st.failedJobs.length, st.jobResults.length),
    { st with waiting := [], active := [], completedJobs := [],
              failedJobs := [], jobResults := [] })

/-! ### Queue scheduling as a transition system

`downloadQueue.process(QUEUE_CONCURRENCY, handler)` registers `W` worker
slots: Bull starts a waiting job only while fewer than `W` handler calls
are running.  The server's observable evolution is the interleaving of
submissions, job starts (guarded by the concurrency limit), job
finishes, queue clears and timer firings. -/

/-- Remove every path under `downloads/<jobId>` from the file set
(`fs.rm(outputDir, {recursive: true, force: true})`). -/
def deleteJobDir (fsys : List String) (jobId : String) : List String :=
  fsys.filter (fun p => !(strIncludes p ("downloads/" ++ jobId ++ "/")))

/-- One observable step of the server, with worker concurrency `W`. -/
inductive Step (W : Nat) (baseUrl : String) : ServerState → ServerState → Prop
  | submit (now : Nat) (freshId : String) (body : Option String)
      (st : ServerState) :
      Step W baseUrl st (handleDownload now freshId body st).2
  | start (st : ServerState) (job : JobData) (rest : List JobData)
      (hw : st.waiting = job :: rest) (hA : st.active.length < W) :
      Step W baseUrl st
        { st with waiting := rest, active := st.active ++ [job] }
  | finish (now : Nat) (job : JobData) (outcome : ProducerOutcome)
      (st : ServerState) (hj : job ∈ st.active) :
      Step W baseUrl st (finishJob now baseUrl job outcome st)
  | clear (st : ServerState) :
      Step W baseUrl st (clearQueue st).2
  | fireTimer (st : ServerState) (t : DeletionTimer) (ht : t ∈ st.timers) :
      Step W baseUrl st
        { st with fsys := deleteJobDir st.fsys t.jobId,
                  timers := st.timers.erase t }

/-- Reachability from the startup state. -/
def Reachable (W : Nat) (baseUrl : String) (st : ServerState) : Prop :=
  Relation.ReflTransGen (Step W baseUrl) initState st

/-! ### Concrete sample values, used to exercise the theorems -/

/-- A worker result as produced for job `j1`. -/
def sampleResult : JobResult :=
  { success := true, fileUrl := "http://localhost:3000/downloads/j1/song.m4a",
    fileName := "song.m4a", jobId := "j1" }

/-- The cache record written for `sampleResult` at time 100. -/
def sampleRecord : CacheRecord :=
  { success := true, fileUrl := "http://localhost:3000/downloads/j1/song.m4a",
    fileName := "song.m4a", jobId := "j1", cachedAt := 100 }

/-- A state holding the cached record with its backing file on disk. -/
def sampleState : ServerState :=
  { initState with
    cache := [("cache:url:https://music.apple.com/a",
      { record := sampleRecord, setAt := 100, ttlSec := CACHE_TTL_SECONDS })],
    fsys := ["downloads/j1/song.m4a"] }

/-- The same state with the backing file externally deleted. -/
def sampleStale : ServerState :=
  { initState with
    cache := [("cache:url:https://music.apple.com/a",
      { record := sampleRecord, setAt := 100, ttlSec := CACHE_TTL_SECONDS })] }

/-- A state that only has the artifact file of job `j1` on disk. -/
def sampleFsState : ServerState :=
  { initState with fsys := ["downloads/j1/song.m4a"] }

/-- An artifact tree with a junk file and two `.m4a` files in a subfolder. -/
def sampleTree : FSDir :=
  FSDir.cons (FSEntry.file "cover.jpg")
    (FSDir.cons
      (FSEntry.dir "Artist"
        (FSDir.cons (FSEntry.file "01 Song.m4a")
          (FSDir.cons (FSEntry.file "02 Song.m4a") FSDir.nil)))
      FSDir.nil)

/-- An artifact tree holding only files without the `.m4a` suffix. -/
def junkTree : FSDir :=
  FSDir.cons (FSEntry.file "cover.jpg")
    (FSDir.cons (FSEntry.file "notes.txt") FSDir.nil)

/-! ## Lemmas: characters and normalization -/

theorem lowerChar_toNat_of_upper (c : Char) (h : 65 ≤ c.toNat ∧ c.toNat ≤ 90) :
    (lowerChar c).toNat = c.toNat + 32 := by
  have hv : (c.toNat + 32).isValidChar := by
    unfold Nat.isValidChar
    left
    omega
  rw [lowerChar, if_pos h, Char.ofNat, dif_pos hv]
  rfl

theorem lowerChar_eq_self (c : Char) (h : ¬(65 ≤ c.toNat ∧ c.toNat ≤ 90)) :
    lowerChar c = c := by
  rw [lowerChar, if_neg h]

theorem lowerChar_idem (c : Char) : lowerChar (lowerChar c) = lowerChar c := by
  by_cases h : 65 ≤ c.toNat ∧ c.toNat ≤ 90
  · have ht := lowerChar_toNat_of_upper c h
    apply lowerChar_eq_self
    omega
  · rw [lowerChar_eq_self c h, lowerChar_eq_self c h]

theorem wsChar_eq_false_of_toNat (c : Char)
    (h : c.toNat ≠ 32 ∧ c.toNat ≠ 9 ∧ c.toNat ≠ 10 ∧ c.toNat ≠ 13) :
    wsChar c = false := by
  have h32 : (c == ' ') = false := by
    apply beq_eq_false_iff_ne.2
    intro he
    exact h.1 (by rw [he]; rfl)
  have h9 : (c == '\t') = false := by
    apply beq_eq_false_iff_ne.2
    intro he
    exact h.2.1 (by rw [he]; rfl)
  have h10 : (c == '\n') = false := by
    apply beq_eq_false_iff_ne.2
    intro he
    exact h.2.2.1 (by rw [he]; rfl)
  have h13 : (c == '\r') = false := by
    apply beq_eq_false_iff_ne.2
    intro he
    exact h.2.2.2 (by rw [he]; rfl)
  simp [wsChar, h32, h9, h10, h13]

theorem wsChar_lowerChar (c : Char) : wsChar (lowerChar c) = wsChar c := by
  by_cases h : 65 ≤ c.toNat ∧ c.toNat ≤ 90
  · have ht := lowerChar_toNat_of_upper c h
    rw [wsChar_eq_false_of_toNat c (by omega),
        wsChar_eq_false_of_toNat (lowerChar c) (by omega)]
  · rw [lowerChar_eq_self c h]

/-! ## Lemmas: trimming -/

theorem dropWhile_head_false (p : Char → Bool) (l : List Char) (a : Char)
    (t : List Char) (h : l.dropWhile p = a :: t) : p a = false := by
  have h2 : (l.dropWhile p).dropWhile p = l.dropWhile p :=
    List.dropWhile_idempotent p l
  rw [h, List.dropWhile_eq_self_iff] at h2
  simpa using h2

theorem dropWhile_append_last (p : Char → Bool) (a : Char) (ha : p a = false) :
    ∀ xs : List Char, ∃ s, List.dropWhile p (xs ++ [a]) = s ++ [a] := by
  intro xs
  induction xs with
  | nil =>
    refine ⟨[], ?_⟩
    simp [List.dropWhile, ha]
  | cons x xt ih =>
    by_cases hx : p x = true
    · obtain ⟨s, hs⟩ := ih
      refine ⟨s, ?_⟩
      simp [List.dropWhile, hx, hs]
    · refine ⟨x :: xt, ?_⟩
      simp [List.dropWhile, hx]

/-- After dropping leading whitespace and then trailing whitespace, the head
still fails the predicate. -/
theorem dropWhile_trimL (l : List Char) :
    (trimL l).dropWhile wsChar = trimL l := by
  unfold trimL
  cases hA : l.dropWhile wsChar with
  | nil => simp
  | cons a t =>
    have ha : wsChar a = false := dropWhile_head_false wsChar l a t hA
    have : (a :: t).reverse = t.reverse ++ [a] := by simp
    rw [this]
    obtain ⟨s, hs⟩ := dropWhile_append_last wsChar a ha t.reverse
    rw [hs]
    simp [List.dropWhile, ha]

theorem trimL_idem (l : List Char) : trimL (trimL l) = trimL l := by
  conv_lhs => rw [trimL, dropWhile_trimL]
  rw [trimL]
  rw [List.reverse_reverse, List.dropWhile_idempotent]

theorem trimL_map_lower (l : List Char) :
    trimL (l.map lowerChar) = (trimL l).map lowerChar := by
  have hws : (fun c => wsChar (lowerChar c)) = wsChar := by
    funext c
    exact wsChar_lowerChar c
  unfold trimL
  rw [List.dropWhile_map, ← List.map_reverse, List.dropWhile_map,
      ← List.map_reverse]
  simp only [Function.comp_def, hws]

/-! ## Lemmas: the normalizer -/

theorem data_normalizeUrl (u : String) :
    (normalizeUrl u).data = (trimL u.data).map lowerChar := rfl

theorem normalizeUrl_idem (u : String) :
    normalizeUrl (normalizeUrl u) = normalizeUrl u := by
  apply String.ext
  rw [data_normalizeUrl, data_normalizeUrl, trimL_map_lower, trimL_idem,
      List.map_map]
  congr 1
  funext c
  exact lowerChar_idem c

theorem normalizeUrl_jsTrim (u : String) :
    normalizeUrl (jsTrim u) = normalizeUrl u := by
  apply String.ext
  rw [data_normalizeUrl, data_normalizeUrl]
  show ((trimL (trimL u.data))).map lowerChar = (trimL u.data).map lowerChar
  rw [trimL_idem]

theorem normalizeUrl_jsToLower (u : String) :
    normalizeUrl (jsToLower u) = normalizeUrl u := by
  apply String.ext
  rw [data_normalizeUrl, data_normalizeUrl]
  show (trimL (u.data.map lowerChar)).map lowerChar = (trimL u.data).map lowerChar
  rw [trimL_map_lower, List.map_map]
  congr 1
  funext c
  exact lowerChar_idem c

theorem getCacheKey_congr (r1 r2 : String)
    (h : normalizeUrl r1 = normalizeUrl r2) : getCacheKey r1 = getCacheKey r2 := by
  unfold getCacheKey
  rw [h]

/-! ## Lemmas: `.m4a` suffix under path joining -/

theorem isPreL_m4a_slash (rn rf : List Char) :
    isPreL ['a', '4', 'm', '.'] (rf ++ '/' :: rn) =
      isPreL ['a', '4', 'm', '.'] rf := by
  match rf with
  | [] => simp [isPreL]
  | [a] => simp [isPreL]
  | [a, b] => simp [isPreL]
  | [a, b, c] => simp [isPreL]
  | a :: b :: c :: d :: rest => simp [isPreL]

theorem data_join (n f : String) :
    (n ++ "/" ++ f).data = n.data ++ '/' :: f.data := by
  simp [String.data_append]

theorem endsWithM4a_join (n f : String) :
    endsWithM4a (n ++ "/" ++ f) = endsWithM4a f := by
  unfold endsWithM4a isSufL
  rw [data_join]
  have h : (n.data ++ '/' :: f.data).reverse =
      f.data.reverse ++ '/' :: n.data.reverse := by
    simp
  have h2 : ".m4a".data.reverse = ['a', '4', 'm', '.'] := by decide
  rw [h, h2]
  exact isPreL_m4a_slash (n.data.reverse) (f.data.reverse)

/-! ## Lemmas: `findM4aFiles` is the `.m4a` filter of all produced files -/

mutual

theorem findM4aEntry_eq_filter (e : FSEntry) :
    findM4aEntry e = (allFilesEntry e).filter endsWithM4a := by
  match e with
  | FSEntry.file n =>
    cases h : endsWithM4a n <;>
      simp [findM4aEntry, allFilesEntry, List.filter, h]
  | FSEntry.dir n ch =>
    have hc : (endsWithM4a ∘ fun f => n ++ "/" ++ f) = endsWithM4a := by
      funext x
      exact endsWithM4a_join n x
    simp only [findM4aEntry, allFilesEntry]
    rw [List.filter_map, hc, findM4aDir_eq_filter ch]

theorem findM4aDir_eq_filter (d : FSDir) :
    findM4aDir d = (allFilesDir d).filter endsWithM4a := by
  match d with
  | FSDir.nil => rfl
  | FSDir.cons e rest =>
    simp only [findM4aDir, allFilesDir, List.filter_append]
    rw [findM4aEntry_eq_filter e, findM4aDir_eq_filter rest]

end

/-! ## Lemmas: Redis operations -/

theorem recordValid_eq (fsys : List String) (r : CacheRecord) :
    recordValid fsys r = cacheFilesExist fsys r.jobId r.fileName := by
  simp [recordValid, producedFiles, cacheFilesExist]

theorem redisGet_setex_same (now2 now ttl : Nat)
    (store : List (String × CacheEntry)) (key : String) (record : CacheRecord) :
    redisGet now2 (redisSetex store key record ttl now) key =
      if now2 < now + ttl * 1000 then some record else none := by
  simp [redisGet, redisSetex, List.find?]

theorem redisGet_del (now : Nat) (store : List (String × CacheEntry))
    (key : String) : redisGet now (redisDel store key) key = none := by
  unfold redisGet redisDel
  have h : (store.filter (fun e => !(e.1 == key))).find?
      (fun e => e.1 == key) = none := by
    apply List.find?_eq_none.2
    intro x hx
    have := (List.mem_filter.1 hx).2
    simp at this
    simp [this]
  rw [h]

/-! ## Lemmas: the submission handler -/

theorem handleDownload_frame (now : Nat) (freshId : String)
    (body : Option String) (st : ServerState) :
    (handleDownload now freshId body st).2.active = st.active ∧
    (handleDownload now freshId body st).2.completedJobs = st.completedJobs ∧
    (handleDownload now freshId body st).2.failedJobs = st.failedJobs ∧
    (handleDownload now freshId body st).2.fsys = st.fsys ∧
    (handleDownload now freshId body st).2.timers = st.timers ∧
    (handleDownload now freshId body st).2.jobResults = st.jobResults := by
  cases body with
  | none => exact ⟨rfl, rfl, rfl, rfl, rfl, rfl⟩
  | some url =>
    simp only [handleDownload]
    split
    · exact ⟨rfl, rfl, rfl, rfl, rfl, rfl⟩
    · split
      · exact ⟨rfl, rfl, rfl, rfl, rfl, rfl⟩
      · split
        · split
          · exact ⟨rfl, rfl, rfl, rfl, rfl, rfl⟩
          · exact ⟨rfl, rfl, rfl, rfl, rfl, rfl⟩
        · exact ⟨rfl, rfl, rfl, rfl, rfl, rfl⟩

/-- The handler's response depends only on the cache and the file system,
not on the queue bookkeeping. -/
theorem handleDownload_resp_congr (now : Nat) (freshId : String)
    (body : Option String) (st1 st2 : ServerState)
    (hc : st1.cache = st2.cache) (hf : st1.fsys = st2.fsys) :
    (handleDownload now freshId body st1).1 =
      (handleDownload now freshId body st2).1 := by
  cases body with
  | none => rfl
  | some url =>
    simp only [handleDownload]
    rw [hc, hf]
    cases hb : (url == "") with
    | true => simp [hb]
    | false =>
      cases hi : strIncludes url "music.apple.com" with
      | false => simp [hb, hi]
      | true =>
        simp only [hb, hi, Bool.not_true, Bool.false_eq_true, if_false]
        cases hred : redisGet now st2.cache (getCacheKey url) with
        | none => simp [hred]
        | some cached =>
          cases hex : cacheFilesExist st2.fsys cached.jobId cached.fileName <;>
            simp [hred, hex]

/-- A URL containing `music.apple.com` is not the empty string. -/
theorem url_nonempty_of_includes (url : String)
    (hv : strIncludes url "music.apple.com" = true) : (url == "") = false := by
  cases hb : (url == "") with
  | false => rfl
  | true =>
    have he : url = "" := beq_iff_eq.1 hb
    rw [he] at hv
    exact absurd hv (by decide)

theorem finishJob_active (now : Nat) (baseUrl : String) (job : JobData)
    (outcome : ProducerOutcome) (st : ServerState) :
    (finishJob now baseUrl job outcome st).active = st.active.erase job := by
  unfold finishJob
  split <;> rfl

/-- One step never pushes the active-job count above `W`. -/
theorem step_active_le (W : Nat) (baseUrl : String) (s1 s2 : ServerState)
    (hstep : Step W baseUrl s1 s2) (h1 : s1.active.length ≤ W) :
    s2.active.length ≤ W := by
  cases hstep with
  | submit now freshId body st =>
    rw [(handleDownload_frame now freshId body s1).1]
    exact h1
  | start st job rest hw hA =>
    simp only [List.length_append, List.length_cons, List.length_nil]
    omega
  | finish now job outcome st hj =>
    rw [finishJob_active]
    exact le_trans (List.length_erase_le job s1.active) h1
  | clear st =>
    simp [clearQueue]
  | fireTimer st t ht =>
    exact h1

/-! ## Claim theorems -/

/-- C6: under any sequence of submissions (indeed any interleaving of
submissions, job starts, job completions/failures, queue clears and timer
firings) the number of concurrently active jobs — simultaneous producer
invocations — never exceeds the configured worker concurrency `W`; a job
only starts on a free worker slot (`downloadQueue.process(QUEUE_CONCURRENCY,
handler)` runs at most `W` handler calls at a time). -/
theorem active_jobs_bounded_by_concurrency (W : Nat) (baseUrl : String)
    (st : ServerState) (h : Reachable W baseUrl st) :
    st.active.length ≤ W := by
  induction h with
  | refl => exact Nat.zero_le W
  | tail hsteps hstep ih => exact step_active_le W baseUrl _ _ hstep ih

theorem active_jobs_bounded_witness :
    ((handleDownload 0 "j1" (some "https://music.apple.com/us/album/x")
        initState).2).active.length ≤ 5 :=
  active_jobs_bounded_by_concurrency 5 "http://localhost:3000" _
    (Relation.ReflTransGen.single
      (Step.submit 0 "j1" (some "https://music.apple.com/us/album/x") initState))

/-- C5: the key normalization is a pure function (hence deterministic),
idempotent, insensitive to surrounding whitespace and to letter case
(in particular on the spec's example pair), and any two raw identifiers
with the same normalization receive the same cache key from `getCacheKey`,
the single key-derivation used on both the submission path and the
completion write path. -/
theorem normalization_idempotent_insensitive :
    (∀ u, normalizeUrl (normalizeUrl u) = normalizeUrl u) ∧
    (getCacheKey " URL " = getCacheKey "url") ∧
    (∀ u, getCacheKey (jsTrim u) = getCacheKey u) ∧
    (∀ u, getCacheKey (jsToLower u) = getCacheKey u) ∧
    (∀ r1 r2, normalizeUrl r1 = normalizeUrl r2 →
      getCacheKey r1 = getCacheKey r2) := by
  refine ⟨normalizeUrl_idem, by decide, ?_, ?_, getCacheKey_congr⟩
  · intro u
    exact getCacheKey_congr _ _ (normalizeUrl_jsTrim u)
  · intro u
    exact getCacheKey_congr _ _ (normalizeUrl_jsToLower u)

theorem normalization_witness :
    normalizeUrl (normalizeUrl "  MUSIC.Apple.com/Album/X  ") =
      normalizeUrl "  MUSIC.Apple.com/Album/X  " ∧
    getCacheKey "HTTPS://MUSIC.APPLE.COM/track" =
      getCacheKey " https://music.apple.com/TRACK " :=
  ⟨normalization_idempotent_insensitive.1 _,
   normalization_idempotent_insensitive.2.2.2.2 _ _ (by decide)⟩

/-- C3: on every successful completion the `completed` listener writes the
cache record with the configured TTL (`setex` with `CACHE_TTL_SECONDS`) and
arms the deferred deletion of the job's artifact directory with delay
`CACHE_TTL_SECONDS * 1000` ms, both referenced to the same completion
moment `now`: the store expiry duration and the deletion delay are the same
duration, so the expiry instant and the deletion instant coincide. -/
theorem completion_expiry_and_deletion_agree (now : Nat) (job : JobData)
    (r : JobResult) (st : ServerState) :
    ∃ e t,
      (onCompleted now job r st).cache.head? = some (getCacheKey job.url, e) ∧
      (onCompleted now job r st).timers.getLast? = some t ∧
      t.jobId = job.jobId ∧
      e.setAt = now ∧ t.armedAt = now ∧
      e.ttlSec = CACHE_TTL_SECONDS ∧ t.delayMs = CACHE_TTL_SECONDS * 1000 ∧
      e.ttlSec * 1000 = t.delayMs ∧
      e.setAt + e.ttlSec * 1000 = t.armedAt + t.delayMs := by
  refine ⟨⟨⟨r.success, r.fileUrl, r.fileName, r.jobId, now⟩, now,
            CACHE_TTL_SECONDS⟩,
          ⟨job.jobId, now, CACHE_TTL_SECONDS * 1000⟩,
          rfl, ?_, rfl, rfl, rfl, rfl, rfl, rfl, rfl⟩
  simp [onCompleted]

/-- C9: clearing the queue obliterates all queue bookkeeping and clears the
result tracker, but leaves the Redis cache, the on-disk artifacts and the
armed deletion timers untouched; consequently a submission issued
immediately afterwards gets exactly the response it would have got before
the clear — in particular a cached identifier still hits with its old
jobId. -/
theorem clear_queue_preserves_cache (st : ServerState) :
    ((clearQueue st).2.cache = st.cache ∧
     (clearQueue st).2.fsys = st.fsys ∧
     (clearQueue st).2.timers = st.timers) ∧
    ((clearQueue st).2.waiting = [] ∧ (clearQueue st).2.active = [] ∧
     (clearQueue st).2.completedJobs = [] ∧
     (clearQueue st).2.failedJobs = [] ∧
     (clearQueue st).2.jobResults = []) ∧
    (∀ now freshId body,
      (handleDownload now freshId body (clearQueue st).2).1 =
        (handleDownload now freshId body st).1) := by
  refine ⟨⟨rfl, rfl, rfl⟩, ⟨rfl, rfl, rfl, rfl, rfl⟩, ?_⟩
  intro now freshId body
  exact handleDownload_resp_congr now freshId body _ st rfl rfl

/-- C1: the submission-path cache read returns a cached record only when it
is valid — every path of its produced-file list, resolved under the job's
artifact directory, exists on disk — and when a backing file is missing the
entry is deleted from the store (its key then reads as absent) and the
response is not a cache hit. -/
theorem cache_hit_only_if_valid :
    (∀ now freshId url (st : ServerState) jid cAt r,
      (handleDownload now freshId (some url) st).1 =
        DlResponse.cacheHit jid cAt r →
      ∃ cached, redisGet now st.cache (getCacheKey url) = some cached ∧
        r = recordResult cached ∧ recordValid st.fsys cached = true) ∧
    (∀ now freshId url (st : ServerState) cached,
      strIncludes url "music.apple.com" = true →
      redisGet now st.cache (getCacheKey url) = some cached →
      recordValid st.fsys cached = false →
      (handleDownload now freshId (some url) st).2.cache =
        redisDel st.cache (getCacheKey url) ∧
      redisGet now (handleDownload now freshId (some url) st).2.cache
        (getCacheKey url) = none ∧
      ∀ jid cAt r, (handleDownload now freshId (some url) st).1 ≠
        DlResponse.cacheHit jid cAt r) := by
  constructor
  · intro now freshId url st jid cAt r h
    simp only [handleDownload] at h
    cases hb : (url == "") with
    | true => simp [hb] at h
    | false =>
      cases hi : strIncludes url "music.apple.com" with
      | false => simp [hb, hi] at h
      | true =>
        simp only [hb, hi, Bool.not_true, Bool.false_eq_true, if_false] at h
        cases hred : redisGet now st.cache (getCacheKey url) with
        | none => simp [hred] at h
        | some cached =>
          cases hex : cacheFilesExist st.fsys cached.jobId cached.fileName with
          | false => simp [hred, hex] at h
          | true =>
            simp only [hred, hex, if_true] at h
            refine ⟨cached, rfl, ?_, ?_⟩
            · cases h
              rfl
            · rw [recordValid_eq]
              exact hex
  · intro now freshId url st cached hv hred hstale
    rw [recordValid_eq] at hstale
    have hne : (url == "") = false := by
      cases hb : (url == "") with
      | false => rfl
      | true =>
        have he : url = "" := by
          exact String.ext (by simpa [String.ext_iff] using (beq_iff_eq.1 hb))
        rw [he] at hv
        exact absurd hv (by decide)
    simp only [handleDownload, hne, hv, Bool.not_true, Bool.false_eq_true,
      if_false, hred, hstale]
    refine ⟨?_, ?_, ?_⟩
    · first
      | rfl
      | trivial
    · exact redisGet_del now st.cache (getCacheKey url)
    · intro jid cAt r
      simp

theorem cache_hit_only_if_valid_witness :
    ∃ cached,
      redisGet 200 sampleState.cache
        (getCacheKey "https://music.apple.com/a") = some cached ∧
      recordResult sampleRecord = recordResult cached ∧
      recordValid sampleState.fsys cached = true :=
  cache_hit_only_if_valid.1 200 "f1" "https://music.apple.com/a" sampleState
    "j1" 100 (recordResult sampleRecord) (by decide)

/-- C2: when the normalized key has a cache entry but its backing file is
gone from disk, the submission invalidates the entry (the key then reads
as absent), surfaces no error, and falls through to a normal miss: a job
carrying the fresh `uuidv4` id — a job that did not exist in the queue
before — is appended to the waiting list and the caller gets the
queued response. -/
theorem stale_cache_falls_through (now : Nat) (freshId url : String)
    (st : ServerState) (cached : CacheRecord)
    (hv : strIncludes url "music.apple.com" = true)
    (hred : redisGet now st.cache (getCacheKey url) = some cached)
    (hstale : cacheFilesExist st.fsys cached.jobId cached.fileName = false)
    (hfresh : ∀ j ∈ st.waiting, j.jobId ≠ freshId) :
    (handleDownload now freshId (some url) st).1 = DlResponse.queued freshId ∧
    (∀ msg, (handleDownload now freshId (some url) st).1 ≠
      DlResponse.badRequest msg) ∧
    redisGet now (handleDownload now freshId (some url) st).2.cache
      (getCacheKey url) = none ∧
    (handleDownload now freshId (some url) st).2.waiting =
      st.waiting ++ [{ url := url, jobId := freshId }] ∧
    ({ url := url, jobId := freshId } : JobData) ∉ st.waiting := by
  have hne := url_nonempty_of_includes url hv
  simp only [handleDownload, hne, hv, Bool.not_true, Bool.false_eq_true,
    if_false, hred, hstale]
  refine ⟨?_, ?_, ?_, ?_, ?_⟩
  · first
    | rfl
    | trivial
  · intro msg
    simp
  · exact redisGet_del now st.cache (getCacheKey url)
  · first
    | rfl
    | trivial
  · intro hmem
    exact hfresh _ hmem rfl

theorem stale_cache_falls_through_witness :
    (handleDownload 200 "f2" (some "https://music.apple.com/a")
        sampleStale).1 = DlResponse.queued "f2" ∧
    (∀ msg, (handleDownload 200 "f2" (some "https://music.apple.com/a")
        sampleStale).1 ≠ DlResponse.badRequest msg) ∧
    redisGet 200 (handleDownload 200 "f2" (some "https://music.apple.com/a")
        sampleStale).2.cache (getCacheKey "https://music.apple.com/a") = none ∧
    (handleDownload 200 "f2" (some "https://music.apple.com/a")
        sampleStale).2.waiting =
      sampleStale.waiting ++
        [{ url := "https://music.apple.com/a", jobId := "f2" }] ∧
    ({ url := "https://music.apple.com/a", jobId := "f2" } : JobData) ∉
      sampleStale.waiting :=
  stale_cache_falls_through 200 "f2" "https://music.apple.com/a" sampleStale
    sampleRecord (by decide) (by decide) (by decide) (by decide)

/-- C7: a submission with a missing `url` field, an empty identifier, or an
identifier that is not an Apple-Music target is rejected synchronously with
a 400 validation response, computed before the key is normalized and before
the cache is consulted (the response is the same whatever the cache or any
other part of the state holds); the state is unchanged, so no job is
created and the queue statistics are unaffected. -/
theorem invalid_submission_rejected (now : Nat) (freshId : String)
    (body : Option String) (st : ServerState)
    (h : body = none ∨ body = some "" ∨
      ∃ u, body = some u ∧ strIncludes u "music.apple.com" = false) :
    ((handleDownload now freshId body st).1 =
        DlResponse.badRequest "URL is required" ∨
      (handleDownload now freshId body st).1 =
        DlResponse.badRequest "Invalid Apple Music URL") ∧
    (handleDownload now freshId body st).2 = st ∧
    queueStats (handleDownload now freshId body st).2 = queueStats st ∧
    ∀ st2 : ServerState, (handleDownload now freshId body st2).1 =
      (handleDownload now freshId body st).1 := by
  rcases h with h | h | ⟨u, hu, hbad⟩
  · subst h
    exact ⟨Or.inl rfl, rfl, rfl, fun st2 => rfl⟩
  · subst h
    refine ⟨Or.inl ?_, ?_, ?_, ?_⟩ <;> simp [handleDownload]
  · subst hu
    cases hb : (u == "") with
    | true =>
      have he : u = "" := beq_iff_eq.1 hb
      subst he
      refine ⟨Or.inl ?_, ?_, ?_, ?_⟩ <;> simp [handleDownload]
    | false =>
      refine ⟨Or.inr ?_, ?_, ?_, ?_⟩ <;> simp [handleDownload, hb, hbad]

theorem invalid_submission_rejected_witness :
    ((handleDownload 0 "f3" (some "https://example.com/not-apple")
        sampleState).1 = DlResponse.badRequest "URL is required" ∨
      (handleDownload 0 "f3" (some "https://example.com/not-apple")
        sampleState).1 = DlResponse.badRequest "Invalid Apple Music URL") ∧
    (handleDownload 0 "f3" (some "https://example.com/not-apple")
        sampleState).2 = sampleState ∧
    queueStats (handleDownload 0 "f3" (some "https://example.com/not-apple")
        sampleState).2 = queueStats sampleState ∧
    ∀ st2 : ServerState,
      (handleDownload 0 "f3" (some "https://example.com/not-apple") st2).1 =
        (handleDownload 0 "f3" (some "https://example.com/not-apple")
          sampleState).1 :=
  invalid_submission_rejected 0 "f3" (some "https://example.com/not-apple")
    sampleState (Or.inr (Or.inr ⟨"https://example.com/not-apple", rfl,
      by decide⟩))

/-- C8: for an identifier whose backing file still exists, a later
submission that normalizes to the same key as the completed job's URL gets
a cache hit whose payload is exactly the result recorded by the completion
handler: the same produced file (`fileName`, and hence `fileUrl`), the
same `jobId`, and the `cachedAt` of the completion write. -/
theorem cache_hit_equals_recorded (now now2 : Nat) (job : JobData)
    (r : JobResult) (st : ServerState) (freshId url2 : String)
    (hv : strIncludes url2 "music.apple.com" = true)
    (hkey : normalizeUrl url2 = normalizeUrl job.url)
    (hlive : now2 < now + CACHE_TTL_SECONDS * 1000)
    (hfiles : cacheFilesExist st.fsys r.jobId r.fileName = true) :
    (handleDownload now2 freshId (some url2) (onCompleted now job r st)).1 =
      DlResponse.cacheHit r.jobId now r := by
  have hne := url_nonempty_of_includes url2 hv
  have hkey2 : getCacheKey url2 = getCacheKey job.url :=
    getCacheKey_congr _ _ hkey
  simp only [handleDownload, hne, hv, Bool.not_true, Bool.false_eq_true,
    if_false]
  rw [hkey2]
  have hc : (onCompleted now job r st).cache =
      redisSetex st.cache (getCacheKey job.url)
        ⟨r.success, r.fileUrl, r.fileName, r.jobId, now⟩
        CACHE_TTL_SECONDS now := rfl
  rw [hc, redisGet_setex_same, if_pos hlive]
  have hfs : (onCompleted now job r st).fsys = st.fsys := rfl
  simp [hfs, hfiles, recordResult]

theorem cache_hit_equals_recorded_witness :
    (handleDownload 200 "f9" (some " https://music.apple.com/A ")
        (onCompleted 100 { url := "https://MUSIC.apple.com/a", jobId := "j1" }
          sampleResult sampleFsState)).1 =
      DlResponse.cacheHit "j1" 100 sampleResult :=
  cache_hit_equals_recorded 100 200
    { url := "https://MUSIC.apple.com/a", jobId := "j1" } sampleResult
    sampleFsState "f9" " https://music.apple.com/A "
    (by decide) (by decide) (by decide) (by decide)

/-- C4: a producer run that deposits zero files under the job's artifact
directory makes the worker throw (`No M4A file found after download`), so
the job is recorded as failed with that execution error; and any failed
job — producer error (non-zero exit / timeout) or no produced file — leaves
the cache store exactly as it was: no cache record is written for it. -/
theorem failed_jobs_never_cached :
    (∀ baseUrl jobId tree, allFilesDir tree = [] →
      processJob baseUrl jobId (ProducerOutcome.exited tree) =
        Except.error noM4aMsg) ∧
    (∀ now baseUrl (job : JobData) tree (st : ServerState),
      allFilesDir tree = [] →
      (finishJob now baseUrl job (ProducerOutcome.exited tree)
          st).jobResults.find? (fun e => e.1 == job.jobId) =
        some (job.jobId, JobOutcome.failed noM4aMsg)) ∧
    (∀ now baseUrl (job : JobData) outcome (st : ServerState) e,
      processJob baseUrl job.jobId outcome = Except.error e →
      (finishJob now baseUrl job outcome st).cache = st.cache) := by
  have h1 : ∀ baseUrl jobId tree, allFilesDir tree = [] →
      processJob baseUrl jobId (ProducerOutcome.exited tree) =
        Except.error noM4aMsg := by
    intro baseUrl jobId tree h
    have hm : findM4aDir tree = [] := by
      rw [findM4aDir_eq_filter, h]
      rfl
    simp [processJob, hm]
  refine ⟨h1, ?_, ?_⟩
  · intro now baseUrl job tree st h
    have hp := h1 baseUrl job.jobId tree h
    simp [finishJob, hp, onFailed, setResult, List.find?]
  · intro now baseUrl job outcome st e hp
    simp [finishJob, hp, onFailed]

theorem failed_jobs_never_cached_witness :
    processJob "http://localhost:3000" "j9"
      (ProducerOutcome.exited FSDir.nil) = Except.error noM4aMsg ∧
    (finishJob 0 "http://localhost:3000"
        { url := "https://music.apple.com/z", jobId := "j9" }
        (ProducerOutcome.exited FSDir.nil) initState).jobResults.find?
      (fun e => e.1 == "j9") = some ("j9", JobOutcome.failed noM4aMsg) ∧
    (finishJob 0 "http://localhost:3000"
        { url := "https://music.apple.com/z", jobId := "j9" }
        (ProducerOutcome.exited FSDir.nil) initState).cache =
      initState.cache :=
  ⟨failed_jobs_never_cached.1 _ _ _ rfl,
   failed_jobs_never_cached.2.1 0 "http://localhost:3000"
     { url := "https://music.apple.com/z", jobId := "j9" } FSDir.nil
     initState rfl,
   failed_jobs_never_cached.2.2 0 "http://localhost:3000"
     { url := "https://music.apple.com/z", jobId := "j9" }
     (ProducerOutcome.exited FSDir.nil) initState noM4aMsg
     (failed_jobs_never_cached.1 _ _ _ rfl)⟩

/-- C10: success is decided only by `.m4a` files: the post-run enumeration
is exactly the `.m4a`-suffix filter of all files deposited under the
artifact directory (in traversal order); a run that deposits only files
without that suffix fails with the no-M4A error even though the producer
exited successfully; and on success the recorded result references only
the first enumerated `.m4a` file — all other deposited files are absent
from the result. -/
theorem m4a_suffix_decides_success :
    (∀ d, findM4aDir d = (allFilesDir d).filter endsWithM4a) ∧
    (∀ baseUrl jobId tree,
      (∀ f ∈ allFilesDir tree, endsWithM4a f = false) →
      processJob baseUrl jobId (ProducerOutcome.exited tree) =
        Except.error noM4aMsg) ∧
    (∀ baseUrl jobId tree f rest,
      findM4aDir tree = f :: rest →
      processJob baseUrl jobId (ProducerOutcome.exited tree) =
        Except.ok
          { success := true
            fileUrl := baseUrl ++ "/downloads/" ++ jobId ++ "/" ++ f
            fileName := f
            jobId := jobId }) := by
  refine ⟨findM4aDir_eq_filter, ?_, ?_⟩
  · intro baseUrl jobId tree h
    have hm : findM4aDir tree = [] := by
      rw [findM4aDir_eq_filter, List.filter_eq_nil_iff]
      intro a ha
      simp [h a ha]
    simp [processJob, hm]
  · intro baseUrl jobId tree f rest h
    simp [processJob, h]

theorem m4a_suffix_decides_success_witness :
    findM4aDir sampleTree = (allFilesDir sampleTree).filter endsWithM4a ∧
    processJob "http://localhost:3000" "j3"
      (ProducerOutcome.exited junkTree) = Except.error noM4aMsg ∧
    processJob "http://localhost:3000" "j3"
      (ProducerOutcome.exited sampleTree) =
      Except.ok
        { success := true
          fileUrl := "http://localhost:3000/downloads/j3/Artist/01 Song.m4a"
          fileName := "Artist/01 Song.m4a"
          jobId := "j3" } :=
  ⟨m4a_suffix_decides_success.1 sampleTree,
   m4a_suffix_decides_success.2.1 "http://localhost:3000" "j3" junkTree
     (by decide),
   m4a_suffix_decides_success.2.2 "http://localhost:3000" "j3" sampleTree
     "Artist/01 Song.m4a" ["Artist/02 Song.m4a"] (by decide)⟩

end GamdlServer
